import Mathlib

/-!
Verification development for the EWD repository (three Python source files:
`county_alert_summary_public.py`, `one_time_enrich_ugc_public.py`,
`utils_public_layer.py`).

Strings are modelled as `List Char`.  Python character classes and word
boundaries are modelled over the ASCII range (the data handled by the
pipelines — event labels, UGC codes, state abbreviations, county names —
is ASCII).
-/

set_option maxRecDepth 10000

/-- Python `\w` word character, ASCII range: letters, digits, underscore
(65..90 = A..Z, 97..122 = a..z, 48..57 = 0..9, 95 = underscore). -/
def pyWordChar (c : Char) : Bool :=
  (65 ≤ c.toNat && c.toNat ≤ 90) || (97 ≤ c.toNat && c.toNat ≤ 122) ||
  (48 ≤ c.toNat && c.toNat ≤ 57) || c.toNat == 95

/-- Character class `[a-z0-9]` used by the strip step of `normalize_name`
and by `slug` (97..122 = a..z, 48..57 = 0..9). -/
def isLowerAlnum (c : Char) : Bool :=
  (97 ≤ c.toNat && c.toNat ≤ 122) || (48 ≤ c.toNat && c.toNat ≤ 57)

/-- Python `str.lower`, ASCII range (65..90 = A..Z mapped down by 32). -/
def pyLower (c : Char) : Char :=
  if 65 ≤ c.toNat && c.toNat ≤ 90 then Char.ofNat (c.toNat + 32) else c

/-- Python `str.upper`, ASCII range (97..122 = a..z mapped up by 32). -/
def pyUpper (c : Char) : Char :=
  if 97 ≤ c.toNat && c.toNat ≤ 122 then Char.ofNat (c.toNat - 32) else c

/-- Literal matcher: `matchLit p l = some r` iff `l = p ++ r`. -/
def matchLit : List Char → List Char → Option (List Char)
  | [], l => some l
  | _ :: _, [] => none
  | p :: ps, c :: cs => if p = c then matchLit ps cs else none

/-- Trailing word-boundary test used after a matched alternative of
`\b(county|parish|borough|city|census area|municipality)\b`: the last
character of every alternative is a word character, so the trailing `\b`
holds iff the rest of the string is empty or starts with a non-word
character. -/
def afterOk : List Char → Bool
  | [] => true
  | c :: _ => !pyWordChar c

/-- Try one alternative of the suffix regex at the current position:
match the literal, then require the trailing word boundary. -/
def tryWord (w l : List Char) : Option (List Char) :=
  match matchLit w l with
  | some r => if afterOk r then some r else none
  | none => none

/-- Try the alternatives in pattern order (Python alternation is
first-match at a given position). -/
def tryWords : List (List Char) → List Char → Option (List Char)
  | [], _ => none
  | w :: ws, l =>
    match tryWord w l with
    | some r => some r
    | none => tryWords ws l

/-- The alternatives of the suffix-stripping regex in
`normalize_name` (`one_time_enrich_ugc_public.py` line 44), in order. -/
def suffixWords : List (List Char) :=
  [("county").data, ("parish").data, ("borough").data, ("city").data,
   ("census area").data, ("municipality").data]

/-- One left-to-right scan of
`re.sub(r"\b(county|parish|borough|city|census area|municipality)\b", "", n)`.
`prevWord` records whether the character before the current position is a
word character: every alternative starts with a word character, so the
leading `\b` holds iff `prevWord` is false.  After a replacement the
character before the resume position is the last character of the matched
word, a word character, hence `prevWord := true`.  Fuel is the length of
the remaining input, kept so the recursion is structural. -/
def subWWFuel : Nat → Bool → List Char → List Char
  | _, _, [] => []
  | 0, _, l => l
  | fuel + 1, prevWord, c :: rest =>
    if prevWord then c :: subWWFuel fuel (pyWordChar c) rest
    else
      match tryWords suffixWords (c :: rest) with
      | some r => subWWFuel fuel true r
      | none => c :: subWWFuel fuel (pyWordChar c) rest

/-- The suffix-removal step of `normalize_name`. -/
def sub_suffixes (l : List Char) : List Char := subWWFuel l.length false l

/-- Python `str.replace pat repl` (all occurrences, left to right, the
replacement text is not rescanned).  Fuel is the length of the remaining
input, kept so the recursion is structural. -/
def replaceAllFuel (pat repl : List Char) : Nat → List Char → List Char
  | _, [] => []
  | 0, l => l
  | fuel + 1, c :: rest =>
    match matchLit pat (c :: rest) with
    | some r => repl ++ replaceAllFuel pat repl fuel r
    | none => c :: replaceAllFuel pat repl fuel rest

/-- Python `l.replace(pat, repl)`. -/
def pyReplace (l pat repl : List Char) : List Char :=
  replaceAllFuel pat repl l.length l

/-- `re.sub(r"[^a-z0-9]+", "", n)`: replacing every maximal run of
characters outside `[a-z0-9]` by the empty string keeps exactly the
`[a-z0-9]` characters, in order. -/
def stripNonAlnum (l : List Char) : List Char := l.filter isLowerAlnum

/-- `normalize_name` from `one_time_enrich_ugc_public.py` lines 32..53:
empty guard, lowercase, suffix-word removal, `"saint " -> "st "` and
`"sainte " -> "ste "` replacements, strip to `[a-z0-9]`. -/
def normalize_name (name : List Char) : List Char :=
  if name.isEmpty then []
  else
    stripNonAlnum
      (pyReplace
        (pyReplace (sub_suffixes (name.map pyLower)) (("saint ").data) (("st ").data))
        (("sainte ").data) (("ste ").data))

example : normalize_name (("Saint Mary Parish").data) = ("stmary").data := by decide
example : normalize_name (("St Mary").data) = ("stmary").data := by decide
example : normalize_name (("count y").data) = ("county").data := by decide
example : normalize_name (("county").data) = [] := by decide
example : normalize_name (("DeWitt").data) = ("dewitt").data := by decide
example : normalize_name (("De Witt County").data) = ("dewitt").data := by decide

/-! ## county_alert_summary_public.py: classifier, filter, aggregation -/

/-- Substring test, Python `pat in l`. -/
def hasSubstr (pat : List Char) : List Char → Bool
  | [] => pat.isEmpty
  | c :: rest => (matchLit pat (c :: rest)).isSome || hasSubstr pat rest

/-- `ww_tag` from `county_alert_summary_public.py` lines 40..50.  The
event text may be `None` (`event_text or ""`). -/
def ww_tag (event_text : Option (List Char)) : List Char :=
  let e := (event_text.getD []).map pyLower
  if hasSubstr (("warning").data) e then ("warning").data
  else if hasSubstr (("watch").data) e then ("watch").data
  else ("advisory").data

/-- The allow-list test at `county_alert_summary_public.py` line 35:
`if not ALLOW_EVENTS or ev in ALLOW_EVENTS`.  The allow-list holds exact
event-name strings, so a `None` event is never a member of a non-empty
allow-list. -/
def event_allowed (allow : List (List Char)) (ev : Option (List Char)) : Bool :=
  allow.isEmpty ||
    (match ev with
     | some s => allow.contains s
     | none => false)

/-- The county-UGC test at `county_alert_summary_public.py` line 70:
`len(u) > 2 and u[2] == "C"`.  The pattern match inspects the third
character only when the token has more than two characters, mirroring the
short-circuit `and`. -/
def is_county_ugc : List Char → Bool
  | _ :: _ :: c :: _ => c == 'C'
  | _ => false

/-- Python `set.add`: insert if not already present (the set is only ever
consumed through `sorted`, so the list order chosen here is immaterial). -/
def setAdd (x : List Char) (s : List (List Char)) : List (List Char) :=
  if s.contains x then s else s ++ [x]

/-- Per-region aggregation record `{"warn": set(), "watch": set(), "adv": set()}`. -/
structure AggRec where
  warn : List (List Char)
  watch : List (List Char)
  adv : List (List Char)
deriving DecidableEq, Repr

def emptyAgg : AggRec := ⟨[], [], []⟩

/-- The tier dispatch at lines 73..78: add the event name to the matching
tier set. -/
def addTier (tag ev : List Char) (r : AggRec) : AggRec :=
  if tag = ("warning").data then ⟨setAdd ev r.warn, r.watch, r.adv⟩
  else if tag = ("watch").data then ⟨r.warn, setAdd ev r.watch, r.adv⟩
  else ⟨r.warn, r.watch, setAdd ev r.adv⟩

/-- The aggregation dict `agg`, modelled as an insertion-ordered
association list (Python dict semantics: update in place, append new
keys). -/
abbrev AggMap := List (List Char × AggRec)

/-- `agg.setdefault(ugc, empty)` followed by a tier update. -/
def aggInsert (m : AggMap) (ugc : List Char) (f : AggRec → AggRec) : AggMap :=
  match m with
  | [] => [(ugc, f emptyAgg)]
  | kv :: rest => if kv.1 = ugc then (ugc, f kv.2) :: rest else kv :: aggInsert rest ugc f

/-- One alert record as consumed by the aggregation loop: the event label
and the UGC token list `(p.get("geocode") or {}).get("UGC") or []`
(a missing geocode field is the empty list). -/
structure AlertRec where
  event : List Char
  ugcs : List (List Char)

/-- Lines 66..78: classify the event, filter the UGC tokens to
county-equivalent ones, add the event name to each surviving region. -/
def aggStep (m : AggMap) (p : AlertRec) : AggMap :=
  let tag := ww_tag (some p.event)
  (p.ugcs.filter is_county_ugc).foldl (fun m2 u => aggInsert m2 u (addTier tag p.event)) m

/-- Lines 64..78 over the whole (already fetched) alert feed; the
allow-list filter of `iter_active_alert_props` is applied first, as the
generator applies it before yielding. -/
def buildAgg (allow : List (List Char)) (alerts : List AlertRec) : AggMap :=
  (alerts.filter (fun p => event_allowed allow (some p.event))).foldl aggStep []

/-- Python string `<`, lexicographic on code points. -/
def strLe : List Char → List Char → Bool
  | [], _ => true
  | _ :: _, [] => false
  | c :: cs, d :: ds => c.toNat < d.toNat || (c.toNat = d.toNat && strLe cs ds)

def insertSorted (x : List Char) : List (List Char) → List (List Char)
  | [] => [x]
  | y :: ys => if strLe x y then x :: y :: ys else y :: insertSorted x ys

/-- Python `sorted` on a set of strings (insertion sort; the claims only
depend on the result being a sorting of the set). -/
def sortStrs : List (List Char) → List (List Char)
  | [] => []
  | x :: xs => insertSorted x (sortStrs xs)

/-- Python `"; ".join`. -/
def joinSemi : List (List Char) → List Char
  | [] => []
  | [x] => x
  | x :: y :: rest => x ++ ';' :: ' ' :: joinSemi (y :: rest)

/-- One county feature row as read at lines 87..90: the object id and the
`ugc` attribute, either possibly absent. -/
structure CountyRow where
  oid : Option Int
  ugc : Option (List Char)

/-- The update record built at lines 104..124 (`attributes` mapping with
fixed keys). -/
structure SummaryUpdate where
  oid : Option Int
  status_level : Nat
  warning_count : Nat
  warning_names : Option (List Char)
  watch_count : Nat
  watch_names : Option (List Char)
  advisory_count : Nat
  advisory_names : Option (List Char)
  last_updated : List Char
deriving DecidableEq, Repr

/-- `agg.get(ugc, {"warn": set(), "watch": set(), "adv": set()})`; a row
whose `ugc` attribute is `None` cannot equal any string dict key. -/
def aggLookup (m : AggMap) (ugc : Option (List Char)) : AggRec :=
  match ugc with
  | none => emptyAgg
  | some u =>
    match m.find? (fun kv => kv.1 = u) with
    | some kv => kv.2
    | none => emptyAgg

/-- Lines 94..124: build the status-summary update record for one county
row. -/
def buildRow (m : AggMap) (now : List Char) (row : CountyRow) : SummaryUpdate :=
  let r0 := aggLookup m row.ugc
  let warning_names := sortStrs r0.warn
  let watch_names := sortStrs r0.watch
  let adv_names := sortStrs r0.adv
  let warning_count := warning_names.length
  let watch_count := watch_names.length
  let advisory_count := adv_names.length
  ⟨row.oid,
   if 0 < warning_count then 2 else if 0 < watch_count then 1 else 0,
   warning_count,
   if warning_names.isEmpty then none else some (joinSemi warning_names),
   watch_count,
   if watch_names.isEmpty then none else some (joinSemi watch_names),
   advisory_count,
   if adv_names.isEmpty then none else some (joinSemi adv_names),
   now⟩

/-- Lines 87..124: the loop appends exactly one update per county row
read. -/
def summaryUpdates (m : AggMap) (now : List Char) (rows : List CountyRow) : List SummaryUpdate :=
  rows.map (buildRow m now)

/-! ## utils_public_layer.py: batched, apply_updates -/

/-- `batched` from `utils_public_layer.py` lines 75..83: accumulate items,
emit the batch when its length reaches `n`, emit the remainder at the
end. -/
def batchedGo {α : Type} (n : Nat) (acc : List α) : List α → List (List α)
  | [] => if acc.isEmpty then [] else [acc]
  | x :: rest =>
    let acc2 := acc ++ [x]
    if acc2.length = n then acc2 :: batchedGo n [] rest else batchedGo n acc2 rest

def batched {α : Type} (l : List α) (n : Nat) : List (List α) := batchedGo n [] l

/-- Shape of one `applyEdits` JSON response as inspected by
`apply_updates`: whether an `"error"` key is present, and the
`"updateResults"` list if present, each entry reduced to the truthiness
of its `"success"` field.  Any other shape is `updateResults = none`. -/
structure ApplyResp where
  hasError : Bool
  updateResults : Option (List Bool)

/-- `apply_updates` from `utils_public_layer.py` lines 86..106, with the
remote endpoint abstracted as the sequence `resps` of responses to the
successive POST calls.  Returns the final running total together with
the list of batches actually submitted (the observable call trace). -/
def applyGo {α : Type} (resps : Nat → ApplyResp) :
    List (List α) → Nat → Nat → Nat × List (List α)
  | [], _, total => (total, [])
  | b :: rest, i, total =>
    let js := resps i
    if js.hasError then (total, [b])
    else
      match js.updateResults with
      | some rs =>
        let p := applyGo resps rest (i + 1) (total + (rs.filter (fun x => x)).length)
        (p.1, b :: p.2)
      | none => (total, [b])

def apply_updates {α : Type} (resps : Nat → ApplyResp) (updates : List α)
    (batch : Nat) : Nat × List (List α) :=
  applyGo resps (batched updates batch) 0 0

/-- A response the loop continues past: no error envelope and a results
list present. -/
def goodResp (r : ApplyResp) : Bool := !r.hasError && r.updateResults.isSome

/-- The individually-counted successes of one response
(`[r for r in js["updateResults"] if r.get("success")]`). -/
def successCount (r : ApplyResp) : Nat :=
  match r.updateResults with
  | some rs => (rs.filter (fun x => x)).length
  | none => 0

/-- Sum of the confirmed successes of responses `i, i+1, ..., i+k-1`. -/
def sumSucc (resps : Nat → ApplyResp) (i : Nat) : Nat → Nat
  | 0 => 0
  | k + 1 => successCount (resps i) + sumSucc resps (i + 1) k

/-! ## one_time_enrich_ugc_public.py: zone index and matcher -/

/-- One zone record's properties as read at lines 72..78. -/
structure ZoneProps where
  type : Option (List Char)
  id : Option (List Char)
  state : Option (List Char)
  name : Option (List Char)

/-- Python truthiness of an optional string: `None` and `""` are falsy. -/
def truthyStr : Option (List Char) → Bool
  | none => false
  | some s => !s.isEmpty

/-- The two-level index `state -> normalized name -> UGC`, modelled as
insertion-ordered association lists (Python dict semantics). -/
abbrev ZoneIndex := List (List Char × List (List Char × List Char))

/-- Inner dict assignment `d[key] = ugc`: overwrite in place, append new
keys. -/
def innerSet (m : List (List Char × List Char)) (k v : List Char) :
    List (List Char × List Char) :=
  match m with
  | [] => [(k, v)]
  | kv :: rest => if kv.1 = k then (k, v) :: rest else kv :: innerSet rest k v

/-- `by_state.setdefault(state, {})[key] = ugc`. -/
def outerSet (idx : ZoneIndex) (s k v : List Char) : ZoneIndex :=
  match idx with
  | [] => [(s, innerSet [] k v)]
  | sm :: rest => if sm.1 = s then (s, innerSet sm.2 k v) :: rest else sm :: outerSet rest s k v

/-- Inner dict lookup `d.get(key)`. -/
def innerGet (m : List (List Char × List Char)) (k : List Char) : Option (List Char) :=
  match m with
  | [] => none
  | kv :: rest => if kv.1 = k then some kv.2 else innerGet rest k

/-- `zone_index.get(state, {}).get(key)`. -/
def zoneGet (idx : ZoneIndex) (s k : List Char) : Option (List Char) :=
  match idx with
  | [] => none
  | sm :: rest => if sm.1 = s then innerGet sm.2 k else zoneGet rest s k

/-- The per-record body of `build_zone_index` (lines 71..85): skip
records whose type is not `"county"`, skip records with a falsy id,
state or name, otherwise upper-case the state, normalize the name and
assign the UGC. -/
def zoneStep (idx : ZoneIndex) (p : ZoneProps) : ZoneIndex :=
  if p.type ≠ some (("county").data) then idx
  else if truthyStr p.id && truthyStr p.state && truthyStr p.name then
    outerSet idx ((p.state.getD []).map pyUpper) (normalize_name (p.name.getD []))
      (p.id.getD [])
  else idx

/-- `build_zone_index` from `one_time_enrich_ugc_public.py` lines 56..90,
over the already fetched zone feed. -/
def build_zone_index (zones : List ZoneProps) : ZoneIndex :=
  zones.foldl zoneStep []

/-- One county feature row as read by the enrichment loop
(lines 106..118). -/
structure RegionRow where
  oid : Option Int
  state : Option (List Char)
  name : Option (List Char)
  ugc : Option (List Char)

/-- The code-assignment update record built at lines 129..134. -/
structure CodeUpdate where
  oid : Option Int
  ugc : List Char
deriving DecidableEq, Repr

/-- Run state of the enrichment loop: the two counters, the proposed
updates and the emitted `[NO MATCH]` diagnostics
`(state, raw name, normalized key)`. -/
structure EnrichState where
  county_count : Nat
  matched_count : Nat
  updates : List CodeUpdate
  diags : List (List Char × List Char × List Char)
deriving DecidableEq, Repr

/-- The loop body, lines 110..137: count the row; skip when a truthy
`ugc` already exists; skip when the upper-cased state or the raw name is
falsy; otherwise look up the normalized name and either propose exactly
one update (truthy hit) or emit one `[NO MATCH]` diagnostic. -/
def enrichStep (idx : ZoneIndex) (st : EnrichState) (row : RegionRow) : EnrichState :=
  let st1 : EnrichState := ⟨st.county_count + 1, st.matched_count, st.updates, st.diags⟩
  if truthyStr row.ugc then st1
  else
    let stateU := (row.state.getD []).map pyUpper
    if stateU.isEmpty || !truthyStr row.name then st1
    else
      let raw := row.name.getD []
      let key := normalize_name raw
      match zoneGet idx stateU key with
      | some u =>
        if u.isEmpty then
          ⟨st1.county_count, st1.matched_count, st1.updates, st1.diags ++ [(stateU, raw, key)]⟩
        else
          ⟨st1.county_count, st1.matched_count + 1, st1.updates ++ [⟨row.oid, u⟩], st1.diags⟩
      | none =>
        ⟨st1.county_count, st1.matched_count, st1.updates, st1.diags ++ [(stateU, raw, key)]⟩

/-- The enrichment loop of `main` (lines 106..137) over the already
fetched county rows, against a given zone index. -/
def run_enrich (idx : ZoneIndex) (rows : List RegionRow) : EnrichState :=
  rows.foldl (enrichStep idx) ⟨0, 0, [], []⟩

/-- The update the loop proposes for one row, if any (the per-row slice
of the loop body). -/
def rowUpdate (idx : ZoneIndex) (row : RegionRow) : Option CodeUpdate :=
  if truthyStr row.ugc then none
  else
    let stateU := (row.state.getD []).map pyUpper
    if stateU.isEmpty || !truthyStr row.name then none
    else
      match zoneGet idx stateU (normalize_name (row.name.getD [])) with
      | some u => if u.isEmpty then none else some ⟨row.oid, u⟩
      | none => none

/-- The `[NO MATCH]` diagnostic the loop emits for one row, if any. -/
def rowDiag (idx : ZoneIndex) (row : RegionRow) :
    Option (List Char × List Char × List Char) :=
  if truthyStr row.ugc then none
  else
    let stateU := (row.state.getD []).map pyUpper
    if stateU.isEmpty || !truthyStr row.name then none
    else
      let raw := row.name.getD []
      let key := normalize_name raw
      match zoneGet idx stateU key with
      | some u => if u.isEmpty then some (stateU, raw, key) else none
      | none => some (stateU, raw, key)

/-! ## Lemmas and claim theorems -/

theorem matchLit_eq_some (p : List Char) :
    ∀ l r, matchLit p l = some r ↔ l = p ++ r := by
  induction p with
  | nil => intro l r; simp [matchLit]
  | cons x xs ih =>
    intro l r
    cases l with
    | nil => simp [matchLit]
    | cons c cs =>
      by_cases h : x = c
      · subst h; simp [matchLit, ih]
      · simp [matchLit, h]
        intro h1
        exact fun _ => h h1.symm

theorem foldl_preserve {α β : Type} (P : β → Prop) (step : β → α → β) :
    ∀ (xs : List α) (b : β), P b → (∀ b2 x, x ∈ xs → P b2 → P (step b2 x)) →
      P (xs.foldl step b) := by
  intro xs
  induction xs with
  | nil => intro b hb _; exact hb
  | cons x rest ih =>
    intro b hb hstep
    exact ih (step b x) (hstep b x (List.mem_cons_self x rest) hb)
      (fun b2 y hy => hstep b2 y (List.mem_cons_of_mem x hy))

theorem aggInsert_keys (Q : List Char → Bool) :
    ∀ (m : AggMap) (u : List Char) (f : AggRec → AggRec),
      (∀ kv ∈ m, Q kv.1 = true) → Q u = true →
      ∀ kv ∈ aggInsert m u f, Q kv.1 = true := by
  intro m
  induction m with
  | nil =>
    intro u f _ hu kv hkv
    simp [aggInsert] at hkv
    rw [hkv]; exact hu
  | cons hd rest ih =>
    intro u f hm hu kv hkv
    by_cases h : hd.1 = u
    · simp [aggInsert, h] at hkv
      rcases hkv with h1 | h1
      · rw [h1]; exact hu
      · exact hm kv (List.mem_cons_of_mem hd h1)
    · simp [aggInsert, h] at hkv
      rcases hkv with h1 | h1
      · rw [h1]; exact hm hd (List.mem_cons_self hd rest)
      · exact ih u f (fun kv2 hkv2 => hm kv2 (List.mem_cons_of_mem hd hkv2)) hu kv h1

/-- Every key the aggregation loop ever creates comes from the filtered
county-UGC list. -/
theorem buildAgg_keys (allow : List (List Char)) (alerts : List AlertRec) :
    ∀ kv ∈ buildAgg allow alerts, is_county_ugc kv.1 = true := by
  have main : ∀ kv ∈ buildAgg allow alerts, is_county_ugc kv.1 = true := by
    intro kv hkv
    refine foldl_preserve (fun m => ∀ kv2 ∈ m, is_county_ugc kv2.1 = true) aggStep _ [] (by simp) ?_ kv hkv
    intro m p _ hm
    refine foldl_preserve (fun m2 => ∀ kv2 ∈ m2, is_county_ugc kv2.1 = true) _ _ m hm ?_
    intro m2 u hu hm2
    have hcu : is_county_ugc u = true := (List.mem_filter.mp hu).2
    exact aggInsert_keys is_county_ugc m2 u _ hm2 hcu
  exact main

/-- C6: a region-code token is retained by the Alert Aggregator iff its
length exceeds 2 and its third character is `C`; every token of length at
most 2 is excluded (the pattern-match definition never inspects a third
character that is not there), and every region key in the aggregation
output passed that test. -/
theorem claim_C6_county_filter (u : List Char) (ugcs : List (List Char))
    (allow : List (List Char)) (alerts : List AlertRec) :
    (u.length ≤ 2 → is_county_ugc u = false)
    ∧ (is_county_ugc u = true ↔ 2 < u.length ∧ u.getD 2 ' ' = 'C')
    ∧ (u ∈ ugcs.filter is_county_ugc ↔ u ∈ ugcs ∧ is_county_ugc u = true)
    ∧ (∀ kv ∈ buildAgg allow alerts, is_county_ugc kv.1 = true) := by
  refine ⟨?_, ?_, ?_, buildAgg_keys allow alerts⟩
  · intro h
    match u, h with
    | [], _ => rfl
    | [_], _ => rfl
    | [_, _], _ => rfl
  · match u with
    | [] => simp [is_county_ugc]
    | [a] => simp [is_county_ugc]
    | [a, b] => simp [is_county_ugc]
    | a :: b :: c :: rest =>
      simp [is_county_ugc, List.getD]
  · exact List.mem_filter

/-- C6 witness: concrete tokens on both sides of the test. -/
theorem claim_C6_county_filter_witness :
    is_county_ugc (("TXC001").data) = true
    ∧ is_county_ugc (("TX").data) = false
    ∧ is_county_ugc (("TXZ001").data) = false
    ∧ (("TXC001").data ∈ [("TX").data, ("TXC001").data].filter is_county_ugc) := by
  refine ⟨?_, ?_, ?_, ?_⟩
  · exact ((claim_C6_county_filter (("TXC001").data) [] [] []).2.1).mpr (by decide)
  · exact (claim_C6_county_filter (("TX").data) [] [] []).1 (by decide)
  · have h := (claim_C6_county_filter (("TXZ001").data) [] [] []).2.1
    cases hc : is_county_ugc (("TXZ001").data) with
    | false => rfl
    | true => exact absurd (h.mp hc).2 (by decide)
  · exact ((claim_C6_county_filter (("TXC001").data)
      [("TX").data, ("TXC001").data] [] []).2.2.1).mpr (by decide)

/-- C4: severity classification is by case-insensitive substring test
with precedence warning > watch > advisory: any label whose lowering
contains `warning` classifies as `warning` (even if it also contains
`watch`); a label with `watch` but not `warning` classifies as `watch`;
every other label (including an absent one) classifies as `advisory`. -/
theorem claim_C4_ww_tag_precedence (ev : Option (List Char)) :
    (hasSubstr (("warning").data) ((ev.getD []).map pyLower) = true →
      ww_tag ev = ("warning").data)
    ∧ (hasSubstr (("warning").data) ((ev.getD []).map pyLower) = false →
       hasSubstr (("watch").data) ((ev.getD []).map pyLower) = true →
       ww_tag ev = ("watch").data)
    ∧ (hasSubstr (("warning").data) ((ev.getD []).map pyLower) = false →
       hasSubstr (("watch").data) ((ev.getD []).map pyLower) = false →
       ww_tag ev = ("advisory").data) := by
  refine ⟨?_, ?_, ?_⟩
  · intro h1; simp [ww_tag, h1]
  · intro h1 h2; simp [ww_tag, h1, h2]
  · intro h1 h2; simp [ww_tag, h1, h2]

/-- C4 witness: a label carrying both keywords classifies as `warning`;
one with only `watch` as `watch`; one with neither as `advisory`. -/
theorem claim_C4_ww_tag_precedence_witness :
    ww_tag (some (("Flood Warning and Tornado Watch").data)) = ("warning").data
    ∧ ww_tag (some (("Tornado Watch").data)) = ("watch").data
    ∧ ww_tag (some (("Dense Fog Advisory").data)) = ("advisory").data := by
  refine ⟨?_, ?_, ?_⟩
  · exact (claim_C4_ww_tag_precedence
      (some (("Flood Warning and Tornado Watch").data))).1 (by decide)
  · exact (claim_C4_ww_tag_precedence
      (some (("Tornado Watch").data))).2.1 (by decide) (by decide)
  · exact (claim_C4_ww_tag_precedence
      (some (("Dense Fog Advisory").data))).2.2 (by decide) (by decide)

/-- C5: an empty allow-list accepts every event label, `None` included; a
non-empty allow-list accepts a label exactly when it is a member, so
case-variant near-matches are rejected. -/
theorem claim_C5_allow_list (allow : List (List Char)) (ev : Option (List Char)) :
    (allow = [] → event_allowed allow ev = true)
    ∧ (allow ≠ [] →
        (event_allowed allow ev = true ↔ ∃ s, ev = some s ∧ s ∈ allow)) := by
  constructor
  · intro h; subst h; rfl
  · intro h
    cases ev with
    | none =>
      simp [event_allowed, List.isEmpty_iff, h]
    | some s =>
      simp [event_allowed, List.isEmpty_iff, h]

/-- C5 witness: the empty allow-list accepts `None` and an arbitrary
label; a singleton allow-list accepts its member and rejects a
case-variant of it. -/
theorem claim_C5_allow_list_witness :
    event_allowed [] none = true
    ∧ event_allowed [] (some (("Tornado Warning").data)) = true
    ∧ event_allowed [("Tornado Warning").data] (some (("Tornado Warning").data)) = true
    ∧ event_allowed [("Tornado Warning").data] (some (("TORNADO WARNING").data)) = false := by
  refine ⟨?_, ?_, ?_, ?_⟩
  · exact (claim_C5_allow_list [] none).1 rfl
  · exact (claim_C5_allow_list [] (some (("Tornado Warning").data))).1 rfl
  · exact ((claim_C5_allow_list [("Tornado Warning").data]
      (some (("Tornado Warning").data))).2 (by decide)).mpr
      ⟨("Tornado Warning").data, rfl, by decide⟩
  · have h := (claim_C5_allow_list [("Tornado Warning").data]
      (some (("TORNADO WARNING").data))).2 (by decide)
    cases hc : event_allowed [("Tornado Warning").data] (some (("TORNADO WARNING").data)) with
    | false => rfl
    | true =>
      rcases h.mp hc with ⟨s, hs, hmem⟩
      cases hs
      exact absurd hmem (by decide)

theorem insertSorted_length (x : List Char) :
    ∀ s, (insertSorted x s).length = s.length + 1 := by
  intro s
  induction s with
  | nil => rfl
  | cons y ys ih =>
    by_cases h : strLe x y
    · simp [insertSorted, h]
    · simp [insertSorted, h, ih]

theorem sortStrs_length : ∀ s, (sortStrs s).length = s.length := by
  intro s
  induction s with
  | nil => rfl
  | cons x xs ih => simp [sortStrs, insertSorted_length, ih]

theorem sortStrs_eq_nil_iff (s : List (List Char)) : sortStrs s = [] ↔ s = [] := by
  constructor
  · intro h
    have := sortStrs_length s
    rw [h] at this
    exact List.length_eq_zero.mp this.symm
  · intro h; rw [h]; rfl

theorem joinSemi_eq_nil (xs : List (List Char)) :
    joinSemi xs = [] → xs ≠ [] → xs = [[]] := by
  intro h hne
  match xs, h, hne with
  | [x], h, _ =>
    simp [joinSemi] at h
    rw [h]
  | x :: y :: rest, h, _ =>
    simp [joinSemi] at h

theorem sortStrs_eq_singleton_nil (s : List (List Char)) :
    sortStrs s = [[]] → s = [[]] := by
  intro h
  match s with
  | [] => simp [sortStrs] at h
  | [a] =>
    simp [sortStrs, insertSorted] at h
    rw [h]
  | a :: b :: t =>
    have := sortStrs_length (a :: b :: t)
    rw [h] at this
    simp at this

/-- C7: the status level of every built summary row is 2 when the
region's warning set is non-empty, else 1 when its watch set is
non-empty, else 0 — and it is determined by the count fields exactly as
`2 if warning_count > 0 else (1 if watch_count > 0 else 0)`. -/
theorem claim_C7_status_level (m : AggMap) (now : List Char) (row : CountyRow) :
    ((aggLookup m row.ugc).warn ≠ [] → (buildRow m now row).status_level = 2)
    ∧ ((aggLookup m row.ugc).warn = [] → (aggLookup m row.ugc).watch ≠ [] →
        (buildRow m now row).status_level = 1)
    ∧ ((aggLookup m row.ugc).warn = [] → (aggLookup m row.ugc).watch = [] →
        (buildRow m now row).status_level = 0)
    ∧ ((buildRow m now row).status_level =
        if 0 < (buildRow m now row).warning_count then 2
        else if 0 < (buildRow m now row).watch_count then 1 else 0) := by
  refine ⟨?_, ?_, ?_, ?_⟩
  · intro h
    have hlen : 0 < (sortStrs (aggLookup m row.ugc).warn).length := by
      rw [sortStrs_length]
      exact List.length_pos.mpr h
    simp [buildRow, hlen]
  · intro h1 h2
    have hlen1 : (sortStrs (aggLookup m row.ugc).warn).length = 0 := by
      rw [sortStrs_length, h1]; rfl
    have hlen2 : 0 < (sortStrs (aggLookup m row.ugc).watch).length := by
      rw [sortStrs_length]
      exact List.length_pos.mpr h2
    simp [buildRow, hlen1, hlen2]
  · intro h1 h2
    have hlen1 : (sortStrs (aggLookup m row.ugc).warn).length = 0 := by
      rw [sortStrs_length, h1]; rfl
    have hlen2 : (sortStrs (aggLookup m row.ugc).watch).length = 0 := by
      rw [sortStrs_length, h2]; rfl
    simp [buildRow, hlen1, hlen2]
  · simp only [buildRow]

/-- C7 witness: a region with one warning gets level 2 regardless of its
watch and advisory sets; one with only watches level 1; an untouched
region level 0. -/
theorem claim_C7_status_level_witness :
    (buildRow [(("TXC001").data,
        ⟨[("Flood Warning").data], [("Tornado Watch").data], [("Heat Advisory").data]⟩)]
        [] ⟨some 1, some (("TXC001").data)⟩).status_level = 2
    ∧ (buildRow [(("TXC002").data, ⟨[], [("Tornado Watch").data], []⟩)]
        [] ⟨some 2, some (("TXC002").data)⟩).status_level = 1
    ∧ (buildRow [] [] ⟨some 3, some (("TXC003").data)⟩).status_level = 0 := by
  refine ⟨?_, ?_, ?_⟩
  · exact (claim_C7_status_level [(("TXC001").data,
      ⟨[("Flood Warning").data], [("Tornado Watch").data], [("Heat Advisory").data]⟩)]
      [] ⟨some 1, some (("TXC001").data)⟩).1 (by decide)
  · exact (claim_C7_status_level [(("TXC002").data, ⟨[], [("Tornado Watch").data], []⟩)]
      [] ⟨some 2, some (("TXC002").data)⟩).2.1 (by decide) (by decide)
  · exact (claim_C7_status_level [] [] ⟨some 3, some (("TXC003").data)⟩).2.2.1
      (by decide) (by decide)

/-- C10: the status-summary driver builds exactly one update per county
row read, and a county with no aggregated alerts gets status level 0,
all counts 0 and `None` for all three name fields. -/
theorem claim_C10_one_update_per_row (m : AggMap) (now : List Char)
    (rows : List CountyRow) (row : CountyRow) :
    (summaryUpdates m now rows).length = rows.length
    ∧ summaryUpdates m now rows = rows.map (buildRow m now)
    ∧ (aggLookup m row.ugc = emptyAgg →
        buildRow m now row = ⟨row.oid, 0, 0, none, 0, none, 0, none, now⟩) := by
  refine ⟨by simp [summaryUpdates], rfl, ?_⟩
  intro h
  simp [buildRow, h, emptyAgg, sortStrs, joinSemi]

/-- C10 witness: a county row absent from the aggregation gets the
all-empty update, and the driver emits one update per row. -/
theorem claim_C10_one_update_per_row_witness :
    (summaryUpdates [] (("t").data)
        [⟨some 1, some (("TXC001").data)⟩, ⟨some 2, none⟩]).length = 2
    ∧ buildRow [] (("t").data) ⟨some 1, some (("TXC001").data)⟩
        = ⟨some 1, 0, 0, none, 0, none, 0, none, ("t").data⟩ := by
  constructor
  · exact (claim_C10_one_update_per_row [] (("t").data)
      [⟨some 1, some (("TXC001").data)⟩, ⟨some 2, none⟩]
      ⟨some 1, some (("TXC001").data)⟩).1
  · exact (claim_C10_one_update_per_row [] (("t").data)
      [⟨some 1, some (("TXC001").data)⟩, ⟨some 2, none⟩]
      ⟨some 1, some (("TXC001").data)⟩).2.2 (by decide)

/-- C3 counterexample: a single active alert whose event label is the
empty string is accepted by the empty allow-list, classified `advisory`,
and aggregated for county `XXC001`; the update built for that county has
a non-empty advisory set (count 1) and `advisory_names = ""`, so a name
field of a built update record can be the empty string, contrary to the
claim. -/
theorem claim_C3_counterexample :
    (summaryUpdates (buildAgg [] [⟨[], [("XXC001").data]⟩]) []
        [⟨some 1, some (("XXC001").data)⟩]).map (fun u2 => u2.advisory_names)
      = [some []]
    ∧ (summaryUpdates (buildAgg [] [⟨[], [("XXC001").data]⟩]) []
        [⟨some 1, some (("XXC001").data)⟩]).map (fun u2 => u2.advisory_count)
      = [1] := by
  constructor
  · decide
  · decide

/-- C3 (amended): in every built summary update, a name field is `None`
exactly when the corresponding label set is empty, and otherwise equals
the sorted labels joined with `"; "`; the join can be the empty string
only when the label set is exactly the singleton `{""}` (an alert with
an empty event label), which is the one case the original claim
excludes. -/
theorem claim_C3_name_fields_amended (m : AggMap) (now : List Char) (row : CountyRow) :
    ((buildRow m now row).warning_names = none ↔ (aggLookup m row.ugc).warn = [])
    ∧ ((buildRow m now row).watch_names = none ↔ (aggLookup m row.ugc).watch = [])
    ∧ ((buildRow m now row).advisory_names = none ↔ (aggLookup m row.ugc).adv = [])
    ∧ ((aggLookup m row.ugc).warn ≠ [] →
        (buildRow m now row).warning_names
          = some (joinSemi (sortStrs (aggLookup m row.ugc).warn)))
    ∧ ((aggLookup m row.ugc).watch ≠ [] →
        (buildRow m now row).watch_names
          = some (joinSemi (sortStrs (aggLookup m row.ugc).watch)))
    ∧ ((aggLookup m row.ugc).adv ≠ [] →
        (buildRow m now row).advisory_names
          = some (joinSemi (sortStrs (aggLookup m row.ugc).adv)))
    ∧ ((buildRow m now row).warning_names = some [] →
        (aggLookup m row.ugc).warn = [[]])
    ∧ ((buildRow m now row).watch_names = some [] →
        (aggLookup m row.ugc).watch = [[]])
    ∧ ((buildRow m now row).advisory_names = some [] →
        (aggLookup m row.ugc).adv = [[]]) := by
  have hnone : ∀ s : List (List Char),
      (if (sortStrs s).isEmpty then (none : Option (List Char))
        else some (joinSemi (sortStrs s))) = none ↔ s = [] := by
    intro s
    by_cases h : sortStrs s = []
    · simp [h, List.isEmpty_iff, (sortStrs_eq_nil_iff s).mp h, sortStrs]
    · have : s ≠ [] := fun hs => h (by rw [hs]; rfl)
      simp [List.isEmpty_iff, h, this]
  have hsome : ∀ s : List (List Char), s ≠ [] →
      (if (sortStrs s).isEmpty then (none : Option (List Char))
        else some (joinSemi (sortStrs s))) = some (joinSemi (sortStrs s)) := by
    intro s hs
    have : sortStrs s ≠ [] := fun h => hs ((sortStrs_eq_nil_iff s).mp h)
    simp [List.isEmpty_iff, this]
  have hempty : ∀ s : List (List Char),
      (if (sortStrs s).isEmpty then (none : Option (List Char))
        else some (joinSemi (sortStrs s))) = some [] → s = [[]] := by
    intro s h
    by_cases hnil : sortStrs s = []
    · simp [hnil, List.isEmpty_iff] at h
    · simp [List.isEmpty_iff, hnil] at h
      exact sortStrs_eq_singleton_nil s
        (joinSemi_eq_nil (sortStrs s) h hnil)
  refine ⟨?_, ?_, ?_, ?_, ?_, ?_, ?_, ?_, ?_⟩
  · simpa [buildRow] using hnone (aggLookup m row.ugc).warn
  · simpa [buildRow] using hnone (aggLookup m row.ugc).watch
  · simpa [buildRow] using hnone (aggLookup m row.ugc).adv
  · intro h; simpa [buildRow] using hsome (aggLookup m row.ugc).warn h
  · intro h; simpa [buildRow] using hsome (aggLookup m row.ugc).watch h
  · intro h; simpa [buildRow] using hsome (aggLookup m row.ugc).adv h
  · intro h; exact hempty (aggLookup m row.ugc).warn (by simpa [buildRow] using h)
  · intro h; exact hempty (aggLookup m row.ugc).watch (by simpa [buildRow] using h)
  · intro h; exact hempty (aggLookup m row.ugc).adv (by simpa [buildRow] using h)

/-- C3 witness: for a region with two warnings and nothing else, the
built update joins the sorted warning labels with `"; "` and stores
`None` for the empty watch and advisory sets. -/
theorem claim_C3_name_fields_amended_witness :
    (buildRow [(("TXC001").data,
        ⟨[("Tornado Warning").data, ("Flood Warning").data], [], []⟩)]
        [] ⟨some 1, some (("TXC001").data)⟩).warning_names
      = some (("Flood Warning; Tornado Warning").data)
    ∧ (buildRow [(("TXC001").data,
        ⟨[("Tornado Warning").data, ("Flood Warning").data], [], []⟩)]
        [] ⟨some 1, some (("TXC001").data)⟩).watch_names = none := by
  constructor
  · have h := (claim_C3_name_fields_amended [(("TXC001").data,
      ⟨[("Tornado Warning").data, ("Flood Warning").data], [], []⟩)]
      [] ⟨some 1, some (("TXC001").data)⟩).2.2.2.1 (by decide)
    rw [h]
    decide
  · exact (claim_C3_name_fields_amended [(("TXC001").data,
      ⟨[("Tornado Warning").data, ("Flood Warning").data], [], []⟩)]
      [] ⟨some 1, some (("TXC001").data)⟩).2.1.mpr (by decide)

theorem batchedGo_join {α : Type} (n : Nat) :
    ∀ (l acc : List α), (batchedGo n acc l).flatten = acc ++ l := by
  intro l
  induction l with
  | nil =>
    intro acc
    by_cases h : acc.isEmpty
    · simp [batchedGo, h, List.isEmpty_iff.mp h]
    · simp [batchedGo, h]
  | cons x rest ih =>
    intro acc
    by_cases h : acc.length + 1 = n
    · simp [batchedGo, h, ih]
    · simp [batchedGo, h, ih]

theorem batchedGo_sizes {α : Type} (n : Nat) (hn : 0 < n) :
    ∀ (l acc : List α), acc.length < n →
      ∀ c ∈ batchedGo n acc l, c ≠ [] ∧ c.length ≤ n := by
  intro l
  induction l with
  | nil =>
    intro acc hacc c hc
    by_cases h : acc.isEmpty
    · simp [batchedGo, h] at hc
    · simp [batchedGo, h] at hc
      subst hc
      exact ⟨fun he => h (by rw [he]; rfl), Nat.le_of_lt hacc⟩
  | cons x rest ih =>
    intro acc hacc c hc
    by_cases h : (acc ++ [x]).length = n
    · simp only [batchedGo, h, if_pos] at hc
      rcases List.mem_cons.mp hc with h1 | h1
      · subst h1
        refine ⟨fun he => ?_, Nat.le_of_eq h⟩
        rw [he] at h
        simp at h
        omega
      · exact ih [] (by simpa using hn) c h1
    · simp only [batchedGo, h, if_neg] at hc
      have hlt : (acc ++ [x]).length < n := by
        simp at h ⊢
        omega
      exact ih (acc ++ [x]) hlt c hc

theorem batchedGo_full_sizes {α : Type} (n : Nat) :
    ∀ (l acc : List α) (i : Nat), i + 1 < (batchedGo n acc l).length →
      ((batchedGo n acc l).getD i []).length = n := by
  intro l
  induction l with
  | nil =>
    intro acc i hi
    by_cases h : acc.isEmpty
    · simp [batchedGo, h] at hi
    · simp [batchedGo, h] at hi
  | cons x rest ih =>
    intro acc i hi
    by_cases h : (acc ++ [x]).length = n
    · simp only [batchedGo, h, if_pos] at hi ⊢
      cases i with
      | zero => simpa using h
      | succ j =>
        simp only [List.getD_cons_succ]
        exact ih [] j (by simpa using hi)
    · simp only [batchedGo, h, if_neg] at hi ⊢
      exact ih (acc ++ [x]) i hi

theorem batchedGo_closed {α : Type} (n : Nat) :
    ∀ (l acc : List α), acc.length < n →
      batchedGo n acc l =
        if acc.isEmpty && l.isEmpty then []
        else (acc ++ l.take (n - acc.length)) :: batchedGo n [] (l.drop (n - acc.length)) := by
  intro l
  induction l with
  | nil =>
    intro acc hacc
    by_cases h : acc.isEmpty
    · simp [batchedGo, h]
    · simp [batchedGo, h]
  | cons x rest ih =>
    intro acc hacc
    by_cases h : acc.length + 1 = n
    · have hk : n - acc.length = 1 := by omega
      simp [batchedGo, h, hk, List.isEmpty_iff]
    · have hlt : (acc ++ [x]).length < n := by
        simp
        omega
      have hk : n - acc.length = (n - (acc.length + 1)) + 1 := by omega
      have hstep : batchedGo n acc (x :: rest) = batchedGo n (acc ++ [x]) rest := by
        simp [batchedGo, h]
      rw [hstep, ih (acc ++ [x]) hlt]
      simp [List.isEmpty_iff, hk, List.take_succ_cons, List.drop_succ_cons,
        List.append_assoc]

theorem batched_nil {α : Type} (n : Nat) : batched ([] : List α) n = [] := rfl

theorem batched_cons {α : Type} (n : Nat) (hn : 0 < n) (l : List α) (hl : l ≠ []) :
    batched l n = l.take n :: batched (l.drop n) n := by
  rw [batched, batchedGo_closed n l [] (by simpa using hn)]
  simp [List.isEmpty_iff, hl, batched]

/-- The sizes of the three batches submitted for 1200 update records at
batch size 500. -/
theorem batched_1200_500 :
    (batched (List.range 1200) 500).map List.length = [500, 500, 200] := by
  have h1 : (List.range 1200) ≠ [] := by simp
  have h2 : ((List.range 1200).drop 500) ≠ [] := by
    apply List.length_pos.mp
    simp
  have h3 : (((List.range 1200).drop 500).drop 500) ≠ [] := by
    apply List.length_pos.mp
    simp
  have h4 : ((((List.range 1200).drop 500).drop 500).drop 500) = [] := by
    apply List.length_eq_zero.mp
    simp
  rw [batched_cons 500 (by norm_num) _ h1, batched_cons 500 (by norm_num) _ h2,
      batched_cons 500 (by norm_num) _ h3, h4, batched_nil]
  simp [List.length_take]

theorem applyGo_all_good {α : Type} (resps : Nat → ApplyResp) :
    ∀ (batches : List (List α)) (i total : Nat),
      (∀ j, j < batches.length → goodResp (resps (i + j)) = true) →
      applyGo resps batches i total
        = (total + sumSucc resps i batches.length, batches) := by
  intro batches
  induction batches with
  | nil => intro i total _; simp [applyGo, sumSucc]
  | cons b rest ih =>
    intro i total hgood
    have h0 : goodResp (resps i) = true := by simpa using hgood 0 (by simp)
    have hne : (resps i).hasError = false := by
      simp [goodResp, Bool.and_eq_true] at h0
      exact h0.1
    obtain ⟨rs, hrs⟩ : ∃ rs, (resps i).updateResults = some rs := by
      simp [goodResp, Bool.and_eq_true, Option.isSome_iff_exists] at h0
      exact h0.2
    have hrest : ∀ j, j < rest.length → goodResp (resps (i + 1 + j)) = true := by
      intro j hj
      have hx := hgood (j + 1) (by simp; omega)
      have harith : i + (j + 1) = i + 1 + j := by omega
      rw [harith] at hx
      exact hx
    have hstep : applyGo resps (b :: rest) i total
        = ((applyGo resps rest (i + 1) (total + (rs.filter (fun x => x)).length)).1,
           b :: (applyGo resps rest (i + 1) (total + (rs.filter (fun x => x)).length)).2) := by
      simp [applyGo, hne, hrs]
    rw [hstep, ih (i + 1) (total + (rs.filter (fun x => x)).length) hrest]
    simp [sumSucc, successCount, hrs, Nat.add_assoc]

theorem applyGo_halt {α : Type} (resps : Nat → ApplyResp) :
    ∀ (k : Nat) (batches : List (List α)) (i total : Nat),
      k < batches.length →
      (∀ j, j < k → goodResp (resps (i + j)) = true) →
      goodResp (resps (i + k)) = false →
      applyGo resps batches i total
        = (total + sumSucc resps i k, batches.take (k + 1)) := by
  intro k
  induction k with
  | zero =>
    intro batches i total hk _ hbad
    cases batches with
    | nil => simp at hk
    | cons b rest =>
      simp only [Nat.add_zero] at hbad
      by_cases he : (resps i).hasError
      · simp [applyGo, he, sumSucc]
      · have hnone : (resps i).updateResults = none := by
          simp [goodResp, he] at hbad
          exact Option.not_isSome_iff_eq_none.mp (by simp [hbad])
        simp [applyGo, he, hnone, sumSucc]
  | succ k ih =>
    intro batches i total hk hgood hbad
    cases batches with
    | nil => simp at hk
    | cons b rest =>
      have h0 : goodResp (resps i) = true := by simpa using hgood 0 (by omega)
      have hne : (resps i).hasError = false := by
        simp [goodResp, Bool.and_eq_true] at h0
        exact h0.1
      obtain ⟨rs, hrs⟩ : ∃ rs, (resps i).updateResults = some rs := by
        simp [goodResp, Bool.and_eq_true, Option.isSome_iff_exists] at h0
        exact h0.2
      have hgood2 : ∀ j, j < k → goodResp (resps (i + 1 + j)) = true := by
        intro j hj
        have hx := hgood (j + 1) (by omega)
        have harith : i + (j + 1) = i + 1 + j := by omega
        rw [harith] at hx
        exact hx
      have hbad2 : goodResp (resps (i + 1 + k)) = false := by
        have harith : i + 1 + k = i + (k + 1) := by omega
        rw [harith]
        exact hbad
      have hstep : applyGo resps (b :: rest) i total
          = ((applyGo resps rest (i + 1) (total + (rs.filter (fun x => x)).length)).1,
             b :: (applyGo resps rest (i + 1) (total + (rs.filter (fun x => x)).length)).2) := by
        simp [applyGo, hne, hrs]
      rw [hstep, ih rest (i + 1) (total + (rs.filter (fun x => x)).length)
        (by simp at hk; omega) hgood2 hbad2]
      simp [sumSucc, successCount, hrs, List.take_succ_cons, Nat.add_assoc]


/-- C2: `batched` partitions the update list into consecutive batches of
the given size (the final one possibly smaller) preserving order; 1200
records at batch size 500 give exactly 3 submissions of sizes 500, 500,
200; and `apply_updates` submits batches in order until the first
response that is an error envelope or lacks a results list, submits
nothing further, and returns the successes individually counted from the
earlier responses only (all of them, when every response is a results
list). -/
theorem claim_C2_apply_updates (l : List Nat) (n : Nat) :
    ((batched l n).flatten = l)
    ∧ (0 < n → ∀ c ∈ batched l n, c ≠ [] ∧ c.length ≤ n)
    ∧ (∀ i, i + 1 < (batched l n).length → ((batched l n).getD i []).length = n)
    ∧ ((batched (List.range 1200) 500).map List.length = [500, 500, 200])
    ∧ (∀ (resps : Nat → ApplyResp) (k : Nat),
        k < (batched l n).length →
        (∀ j, j < k → goodResp (resps j) = true) →
        goodResp (resps k) = false →
        apply_updates resps l n = (sumSucc resps 0 k, (batched l n).take (k + 1)))
    ∧ (∀ (resps : Nat → ApplyResp),
        (∀ j, j < (batched l n).length → goodResp (resps j) = true) →
        apply_updates resps l n = (sumSucc resps 0 (batched l n).length, batched l n)) := by
  refine ⟨batchedGo_join n l [], ?_, ?_, batched_1200_500, ?_, ?_⟩
  · intro hn c hc
    exact batchedGo_sizes n hn l [] (by simpa using hn) c hc
  · intro i hi
    exact batchedGo_full_sizes n l [] i hi
  · intro resps k hk hgood hbad
    have := applyGo_halt resps k (batched l n) 0 0 hk
      (by intro j hj; simpa using hgood j hj) (by simpa using hbad)
    simpa [apply_updates] using this
  · intro resps hgood
    have := applyGo_all_good resps (batched l n) 0 0
      (by intro j hj; simpa using hgood j hj)
    simpa [apply_updates] using this

/-- C2 witness: six updates in batches of 4; the first response confirms
3 of 4 rows, the second is an error envelope, so the returned total is 3
and only the two batches were submitted (here the second batch is the
final partial one). -/
theorem claim_C2_apply_updates_witness :
    (0 < 4 → ∀ c ∈ batched (List.range 6) 4, c ≠ [] ∧ c.length ≤ 4)
    ∧ apply_updates
        (fun j => if j = 0 then ⟨false, some [true, true, false, true]⟩ else ⟨true, none⟩)
        (List.range 6) 4
      = (3, [[0, 1, 2, 3], [4, 5]]) := by
  constructor
  · exact (claim_C2_apply_updates (List.range 6) 4).2.1
  · have h := (claim_C2_apply_updates (List.range 6) 4).2.2.2.2.1
      (fun j => if j = 0 then ⟨false, some [true, true, false, true]⟩ else ⟨true, none⟩)
      1 (by decide) (by intro j hj; interval_cases j; decide) (by decide)
    rw [h]
    decide

theorem innerGet_innerSet (k v : List Char) :
    ∀ (m : List (List Char × List Char)) (k2 : List Char),
      innerGet (innerSet m k v) k2 = if k = k2 then some v else innerGet m k2 := by
  intro m
  induction m with
  | nil =>
    intro k2
    by_cases h2 : k = k2 <;> simp [innerSet, innerGet, h2]
  | cons kv rest ih =>
    intro k2
    by_cases h : kv.1 = k
    · simp only [innerSet, if_pos h, innerGet]
      by_cases h2 : kv.1 = k2 <;> by_cases h3 : k = k2 <;> simp [h, h2, h3]
    · simp only [innerSet, if_neg h, innerGet, ih]
      by_cases h2 : kv.1 = k2 <;> by_cases h3 : k = k2 <;> simp [h2, h3]
      exact absurd (h2.trans h3.symm) h

theorem zoneGet_outerSet (s k v : List Char) :
    ∀ (idx : ZoneIndex) (s2 k2 : List Char),
      zoneGet (outerSet idx s k v) s2 k2
        = if s = s2 ∧ k = k2 then some v else zoneGet idx s2 k2 := by
  intro idx
  induction idx with
  | nil =>
    intro s2 k2
    by_cases hs : s = s2 <;> by_cases hk2 : k = k2 <;>
      simp [outerSet, zoneGet, innerGet, innerSet, hs, hk2]
  | cons sm rest ih =>
    intro s2 k2
    by_cases h : sm.1 = s
    · simp only [outerSet, if_pos h, zoneGet]
      by_cases hs : s = s2
      · rw [if_pos hs, innerGet_innerSet]
        have hsm : sm.1 = s2 := h.trans hs
        by_cases hk2 : k = k2 <;> simp [zoneGet, hs, hk2, hsm]
      · have hsm : ¬ sm.1 = s2 := fun hh => hs (h.symm.trans hh)
        rw [if_neg hs]
        have hc : ¬ (s = s2 ∧ k = k2) := fun hh => hs hh.1
        simp [zoneGet, hc, hsm]
    · simp only [outerSet, if_neg h, zoneGet, ih]
      by_cases h2 : sm.1 = s2
      · have hc : ¬ (s = s2 ∧ k = k2) := fun hh => h (h2.trans hh.1.symm)
        simp [h2, hc]
      · simp [h2]

/-- The condition under which one zone record causes an assignment to
slot `(s, k)` of the index. -/
def writesKey (p : ZoneProps) (s k : List Char) : Prop :=
  p.type = some (("county").data)
  ∧ truthyStr p.id = true ∧ truthyStr p.state = true ∧ truthyStr p.name = true
  ∧ (p.state.getD []).map pyUpper = s ∧ normalize_name (p.name.getD []) = k

theorem truthy_some {o : Option (List Char)} (h : truthyStr o = true) :
    o = some (o.getD []) ∧ o.getD [] ≠ [] := by
  cases o with
  | none => simp [truthyStr] at h
  | some s =>
    simp [truthyStr, List.isEmpty_iff] at h
    exact ⟨rfl, h⟩

theorem zoneStep_writes (idx : ZoneIndex) (p : ZoneProps) (s k : List Char)
    (h : writesKey p s k) : zoneGet (zoneStep idx p) s k = p.id := by
  obtain ⟨ht, hid, hst, hnm, hs, hk⟩ := h
  rw [zoneStep, if_neg (by simp [ht]), if_pos (by simp [hid, hst, hnm])]
  rw [hs, hk, zoneGet_outerSet]
  simp [(truthy_some hid).1.symm]

theorem zoneStep_preserves (idx : ZoneIndex) (p : ZoneProps) (s k : List Char)
    (h : ¬ writesKey p s k) : zoneGet (zoneStep idx p) s k = zoneGet idx s k := by
  by_cases ht : p.type = some (("county").data)
  · by_cases hg : (truthyStr p.id && truthyStr p.state && truthyStr p.name) = true
    · have hg2 := hg
      simp only [Bool.and_eq_true] at hg2
      have hne : ¬ ((p.state.getD []).map pyUpper = s
          ∧ normalize_name (p.name.getD []) = k) := by
        intro hh
        exact h ⟨ht, hg2.1.1, hg2.1.2, hg2.2, hh.1, hh.2⟩
      rw [zoneStep, if_neg (by simp [ht]), if_pos hg, zoneGet_outerSet]
      simp [hne]
    · rw [zoneStep, if_neg (by simp [ht]), if_neg hg]
  · rw [zoneStep, if_pos (by simp [ht])]


theorem foldl_zoneStep_preserves (s k : List Char) :
    ∀ (zones : List ZoneProps) (idx : ZoneIndex),
      (∀ p ∈ zones, ¬ writesKey p s k) →
      zoneGet (zones.foldl zoneStep idx) s k = zoneGet idx s k := by
  intro zones
  induction zones with
  | nil => intro idx _; rfl
  | cons z rest ih =>
    intro idx hz
    rw [List.foldl_cons, ih (zoneStep idx z) (fun p hp => hz p (List.mem_cons_of_mem z hp)),
      zoneStep_preserves idx z s k (hz z (List.mem_cons_self z rest))]

/-- Every code stored in a built zone index is non-empty (the builder
skips records whose id is falsy). -/
theorem build_zone_index_codes_truthy (zones : List ZoneProps) :
    ∀ s k u, zoneGet (build_zone_index zones) s k = some u → u ≠ [] := by
  refine foldl_preserve
    (fun idx => ∀ s k u, zoneGet idx s k = some u → u ≠ []) zoneStep zones [] ?_ ?_
  · intro s k u h
    simp [zoneGet] at h
  · intro idx p _ hidx s k u hu
    by_cases hw : writesKey p s k
    · rw [zoneStep_writes idx p s k hw] at hu
      obtain ⟨heq, hne⟩ := truthy_some hw.2.1
      rw [heq] at hu
      cases hu
      exact hne
    · rw [zoneStep_preserves idx p s k hw] at hu
      exact hidx s k u hu

/-- C8: when the Zone Index Builder processes two county-type zone
records that land on the same upper-cased group key and the same
normalized name but carry different codes, the completed index stores
the code of the later record (last write wins), whatever records
precede, separate or follow them (none of the following ones writing the
same slot). -/
theorem claim_C8_last_write_wins (pre mid post : List ZoneProps)
    (z1 z2 : ZoneProps) (s k : List Char)
    (_h1 : writesKey z1 s k) (h2 : writesKey z2 s k) (_hdiff : z1.id ≠ z2.id)
    (hpost : ∀ p ∈ post, ¬ writesKey p s k) :
    zoneGet (build_zone_index (pre ++ z1 :: mid ++ z2 :: post)) s k = z2.id := by
  rw [build_zone_index, List.foldl_append, List.foldl_cons, List.foldl_append,
    List.foldl_cons, foldl_zoneStep_preserves s k post _ hpost,
    zoneStep_writes _ z2 s k h2]

/-- C8 witness: two county records for the same state both normalizing
to `stmary`, with different codes; the later code `LAC102` is the one
stored. -/
theorem claim_C8_last_write_wins_witness :
    zoneGet (build_zone_index
        [⟨some (("county").data), some (("LAC101").data), some (("LA").data),
          some (("Saint Mary Parish").data)⟩,
         ⟨some (("county").data), some (("LAC102").data), some (("LA").data),
          some (("St Mary").data)⟩])
      (("LA").data) (("stmary").data) = some (("LAC102").data) := by
  have h := claim_C8_last_write_wins [] [] []
    ⟨some (("county").data), some (("LAC101").data), some (("LA").data),
      some (("Saint Mary Parish").data)⟩
    ⟨some (("county").data), some (("LAC102").data), some (("LA").data),
      some (("St Mary").data)⟩
    (("LA").data) (("stmary").data)
    (by refine ⟨rfl, rfl, rfl, rfl, by decide, by decide⟩)
    (by refine ⟨rfl, rfl, rfl, rfl, by decide, by decide⟩)
    (by decide) (by intro p hp; simp at hp)
  simpa using h

theorem enrichStep_fields (idx : ZoneIndex) (st : EnrichState) (row : RegionRow) :
    enrichStep idx st row
      = ⟨st.county_count + 1,
         st.matched_count + (if (rowUpdate idx row).isSome then 1 else 0),
         st.updates ++ (rowUpdate idx row).toList,
         st.diags ++ (rowDiag idx row).toList⟩ := by
  by_cases h1 : truthyStr row.ugc = true
  · simp [enrichStep, rowUpdate, rowDiag, h1]
  · by_cases h2 : (((row.state.getD []).map pyUpper).isEmpty || !truthyStr row.name) = true
    · simp [enrichStep, rowUpdate, rowDiag, h1, h2]
    · cases hz : zoneGet idx ((row.state.getD []).map pyUpper)
          (normalize_name (row.name.getD [])) with
      | none => simp [enrichStep, rowUpdate, rowDiag, h1, h2, hz]
      | some u =>
        by_cases hu : u.isEmpty = true
        · simp [enrichStep, rowUpdate, rowDiag, h1, h2, hz, hu]
        · simp [enrichStep, rowUpdate, rowDiag, h1, h2, hz, hu]

theorem run_enrich_foldl (idx : ZoneIndex) :
    ∀ (rows : List RegionRow) (st : EnrichState),
      rows.foldl (enrichStep idx) st
        = ⟨st.county_count + rows.length,
           st.matched_count + (rows.filterMap (rowUpdate idx)).length,
           st.updates ++ rows.filterMap (rowUpdate idx),
           st.diags ++ rows.filterMap (rowDiag idx)⟩ := by
  intro rows
  induction rows with
  | nil => intro st; simp
  | cons r rows ih =>
    intro st
    rw [List.foldl_cons, enrichStep_fields idx st r, ih]
    cases hu : rowUpdate idx r <;> cases hd : rowDiag idx r <;>
      simp [hu, hd, List.filterMap_cons] <;> omega

/-- C9: the enrichment loop proposes exactly the per-row updates and
emits exactly the per-row diagnostics, one row at a time; a row with an
existing truthy code, or a missing state or name, is skipped with neither
an update nor a diagnostic; a considered row with an index hit gets
exactly one code-assignment update carrying the looked-up code; a
considered row with an index miss gets no update and one `[NO MATCH]`
diagnostic carrying the upper-cased group key, the raw name and the
computed normalized key. -/
theorem claim_C9_matcher_outcomes (zones : List ZoneProps)
    (rows : List RegionRow) (row : RegionRow) :
    ((run_enrich (build_zone_index zones) rows).updates
        = rows.filterMap (rowUpdate (build_zone_index zones)))
    ∧ ((run_enrich (build_zone_index zones) rows).diags
        = rows.filterMap (rowDiag (build_zone_index zones)))
    ∧ ((run_enrich (build_zone_index zones) rows).county_count = rows.length)
    ∧ (truthyStr row.ugc = true →
        rowUpdate (build_zone_index zones) row = none
        ∧ rowDiag (build_zone_index zones) row = none)
    ∧ (truthyStr row.ugc = false →
        (((row.state.getD []).map pyUpper).isEmpty || !truthyStr row.name) = true →
        rowUpdate (build_zone_index zones) row = none
        ∧ rowDiag (build_zone_index zones) row = none)
    ∧ (∀ u, truthyStr row.ugc = false →
        (((row.state.getD []).map pyUpper).isEmpty || !truthyStr row.name) = false →
        zoneGet (build_zone_index zones) ((row.state.getD []).map pyUpper)
          (normalize_name (row.name.getD [])) = some u →
        rowUpdate (build_zone_index zones) row = some ⟨row.oid, u⟩
        ∧ rowDiag (build_zone_index zones) row = none)
    ∧ (truthyStr row.ugc = false →
        (((row.state.getD []).map pyUpper).isEmpty || !truthyStr row.name) = false →
        zoneGet (build_zone_index zones) ((row.state.getD []).map pyUpper)
          (normalize_name (row.name.getD [])) = none →
        rowUpdate (build_zone_index zones) row = none
        ∧ rowDiag (build_zone_index zones) row
            = some ((row.state.getD []).map pyUpper, row.name.getD [],
                    normalize_name (row.name.getD []))) := by
  refine ⟨?_, ?_, ?_, ?_, ?_, ?_, ?_⟩
  · rw [run_enrich, run_enrich_foldl]
    simp
  · rw [run_enrich, run_enrich_foldl]
    simp
  · rw [run_enrich, run_enrich_foldl]
    simp
  · intro h1
    constructor <;> simp [rowUpdate, rowDiag, h1]
  · intro h1 h2
    constructor <;> simp [rowUpdate, rowDiag, h1, h2]
  · intro u h1 h2 hz
    have hne : u ≠ [] := build_zone_index_codes_truthy zones _ _ u hz
    have hne2 : u.isEmpty = false := by
      cases u with
      | nil => exact absurd rfl hne
      | cons a t => rfl
    constructor <;> simp [rowUpdate, rowDiag, h1, h2, hz, hne2]
  · intro h1 h2 hz
    constructor <;> simp [rowUpdate, rowDiag, h1, h2, hz]

/-- C9 witness: against an index built from one `TX` county zone record
(`De Witt` normalizing to `dewitt`), a row named `De Witt County` with no
existing code is matched and gets exactly one update carrying `TXC123`;
a row with an unknown name gets no update and one diagnostic carrying
state, raw name and normalized key; a row that already has a code is
skipped. -/
theorem claim_C9_matcher_outcomes_witness :
    (run_enrich (build_zone_index
        [⟨some (("county").data), some (("TXC123").data), some (("TX").data),
          some (("De Witt").data)⟩])
        [⟨some 1, some (("TX").data), some (("De Witt County").data), none⟩,
         ⟨some 2, some (("TX").data), some (("Nowhere").data), none⟩,
         ⟨some 3, some (("TX").data), some (("De Witt County").data),
          some (("TXC999").data)⟩]).updates
      = [⟨some 1, ("TXC123").data⟩]
    ∧ (run_enrich (build_zone_index
        [⟨some (("county").data), some (("TXC123").data), some (("TX").data),
          some (("De Witt").data)⟩])
        [⟨some 1, some (("TX").data), some (("De Witt County").data), none⟩,
         ⟨some 2, some (("TX").data), some (("Nowhere").data), none⟩,
         ⟨some 3, some (("TX").data), some (("De Witt County").data),
          some (("TXC999").data)⟩]).diags
      = [(("TX").data, ("Nowhere").data, ("nowhere").data)] := by
  constructor
  · rw [(claim_C9_matcher_outcomes
      [⟨some (("county").data), some (("TXC123").data), some (("TX").data),
        some (("De Witt").data)⟩]
      [⟨some 1, some (("TX").data), some (("De Witt County").data), none⟩,
       ⟨some 2, some (("TX").data), some (("Nowhere").data), none⟩,
       ⟨some 3, some (("TX").data), some (("De Witt County").data),
        some (("TXC999").data)⟩]
      ⟨some 1, some (("TX").data), some (("De Witt County").data), none⟩).1]
    decide
  · rw [(claim_C9_matcher_outcomes
      [⟨some (("county").data), some (("TXC123").data), some (("TX").data),
        some (("De Witt").data)⟩]
      [⟨some 1, some (("TX").data), some (("De Witt County").data), none⟩,
       ⟨some 2, some (("TX").data), some (("Nowhere").data), none⟩,
       ⟨some 3, some (("TX").data), some (("De Witt County").data),
        some (("TXC999").data)⟩]
      ⟨some 1, some (("TX").data), some (("De Witt County").data), none⟩).2.1]
    decide

/-! ## normalize_name: idempotence analysis -/

theorem normalize_all_alnum (x : List Char) :
    ∀ c ∈ normalize_name x, isLowerAlnum c = true := by
  intro c hc
  rw [normalize_name] at hc
  by_cases h : x.isEmpty
  · rw [if_pos h] at hc
    simp at hc
  · rw [if_neg h, stripNonAlnum] at hc
    exact List.of_mem_filter hc

theorem pyLower_fixed {c : Char} (h : isLowerAlnum c = true) : pyLower c = c := by
  simp only [isLowerAlnum, Bool.or_eq_true, Bool.and_eq_true, decide_eq_true_eq] at h
  rw [pyLower, if_neg]
  simp only [Bool.and_eq_true, decide_eq_true_eq, not_and]
  omega

theorem alnum_word {c : Char} (h : isLowerAlnum c = true) : pyWordChar c = true := by
  simp only [isLowerAlnum, Bool.or_eq_true, Bool.and_eq_true, decide_eq_true_eq] at h
  simp only [pyWordChar, Bool.or_eq_true, Bool.and_eq_true, decide_eq_true_eq]
  omega

theorem map_pyLower_fixed (l : List Char) (h : ∀ c ∈ l, isLowerAlnum c = true) :
    l.map pyLower = l := by
  induction l with
  | nil => rfl
  | cons c rest ih =>
    rw [List.map_cons, pyLower_fixed (h c (List.mem_cons_self c rest)),
      ih (fun d hd => h d (List.mem_cons_of_mem c hd))]

theorem tryWord_some_elim (w l r : List Char) (h : tryWord w l = some r) :
    l = w ++ r ∧ afterOk r = true := by
  cases hm : matchLit w l with
  | none => simp [tryWord, hm] at h
  | some r2 =>
    simp only [tryWord, hm] at h
    by_cases ha : afterOk r2 = true
    · rw [if_pos ha] at h
      injection h with h2
      subst h2
      exact ⟨(matchLit_eq_some w l r2).mp hm, ha⟩
    · rw [if_neg ha] at h
      simp at h

theorem tryWord_none_of_wordlike (w l : List Char)
    (hw : ∀ c ∈ l, pyWordChar c = true) (hne : l ≠ w) : tryWord w l = none := by
  cases ht : tryWord w l with
  | none => rfl
  | some r =>
    obtain ⟨heq, hok⟩ := tryWord_some_elim w l r ht
    cases r with
    | nil => rw [List.append_nil] at heq; exact absurd heq hne
    | cons c t =>
      have hc : c ∈ l := by rw [heq]; simp
      have hwc := hw c hc
      simp [afterOk, hwc] at hok

theorem tryWords_none_of_alnum (l : List Char)
    (hw : ∀ c ∈ l, pyWordChar c = true)
    (h1 : l ≠ ("county").data) (h2 : l ≠ ("parish").data)
    (h3 : l ≠ ("borough").data) (h4 : l ≠ ("city").data)
    (h5 : l ≠ ("municipality").data) :
    tryWords suffixWords l = none := by
  have hca : l ≠ ("census area").data := by
    intro he
    have hsp : ' ' ∈ l := by rw [he]; decide
    exact absurd (hw ' ' hsp) (by decide)
  simp only [suffixWords, tryWords,
    tryWord_none_of_wordlike (("county").data) l hw h1,
    tryWord_none_of_wordlike (("parish").data) l hw h2,
    tryWord_none_of_wordlike (("borough").data) l hw h3,
    tryWord_none_of_wordlike (("city").data) l hw h4,
    tryWord_none_of_wordlike (("census area").data) l hw hca,
    tryWord_none_of_wordlike (("municipality").data) l hw h5]

theorem subWWFuel_copy :
    ∀ (l : List Char) (fuel : Nat), l.length ≤ fuel →
      (∀ c ∈ l, pyWordChar c = true) → subWWFuel fuel true l = l := by
  intro l
  induction l with
  | nil => intro fuel _ _; cases fuel <;> rfl
  | cons c rest ih =>
    intro fuel hf hw
    cases fuel with
    | zero => simp at hf
    | succ f =>
      have heq : subWWFuel (f + 1) true (c :: rest)
          = c :: subWWFuel f (pyWordChar c) rest := by
        simp [subWWFuel]
      rw [heq, hw c (List.mem_cons_self c rest),
        ih f (by simp at hf; omega) (fun d hd => hw d (List.mem_cons_of_mem c hd))]

theorem sub_suffixes_fixed (l : List Char)
    (hw : ∀ c ∈ l, pyWordChar c = true)
    (h1 : l ≠ ("county").data) (h2 : l ≠ ("parish").data)
    (h3 : l ≠ ("borough").data) (h4 : l ≠ ("city").data)
    (h5 : l ≠ ("municipality").data) :
    sub_suffixes l = l := by
  cases l with
  | nil => rfl
  | cons c rest =>
    rw [sub_suffixes]
    have hnone := tryWords_none_of_alnum (c :: rest) hw h1 h2 h3 h4 h5
    have heq : subWWFuel (c :: rest).length false (c :: rest)
        = c :: subWWFuel rest.length (pyWordChar c) rest := by
      simp [subWWFuel, hnone]
    rw [heq, hw c (List.mem_cons_self c rest),
      subWWFuel_copy rest rest.length (Nat.le_refl _)
        (fun d hd => hw d (List.mem_cons_of_mem c hd))]

theorem replaceAllFuel_no_space (pat repl : List Char) (hpat : ' ' ∈ pat) :
    ∀ (l : List Char) (fuel : Nat), (∀ c ∈ l, pyWordChar c = true) →
      replaceAllFuel pat repl fuel l = l := by
  intro l
  induction l with
  | nil => intro fuel _; cases fuel <;> rfl
  | cons c rest ih =>
    intro fuel hw
    cases fuel with
    | zero => rfl
    | succ f =>
      have hnone : matchLit pat (c :: rest) = none := by
        cases hm : matchLit pat (c :: rest) with
        | none => rfl
        | some r =>
          have heq := (matchLit_eq_some pat (c :: rest) r).mp hm
          have hsp : ' ' ∈ c :: rest := by
            rw [heq]
            exact List.mem_append_left r hpat
          exact absurd (hw ' ' hsp) (by decide)
      simp [replaceAllFuel, hnone, ih f (fun d hd => hw d (List.mem_cons_of_mem c hd))]

theorem stripNonAlnum_fixed (l : List Char) (h : ∀ c ∈ l, isLowerAlnum c = true) :
    stripNonAlnum l = l := List.filter_eq_self.mpr h

/-- On a string that is already all `[a-z0-9]`, `normalize_name` is the
identity unless the whole string is one of the five one-token suffix
words, in which case the suffix regex deletes it entirely. -/
theorem normalize_name_fixed (l : List Char)
    (ha : ∀ c ∈ l, isLowerAlnum c = true)
    (hmem : l ∉ [("county").data, ("parish").data, ("borough").data,
      ("city").data, ("municipality").data]) :
    normalize_name l = l := by
  have hw : ∀ c ∈ l, pyWordChar c = true := fun c hc => alnum_word (ha c hc)
  simp only [List.mem_cons, List.not_mem_nil, or_false, not_or] at hmem
  obtain ⟨h1, h2, h3, h4, h5⟩ := hmem
  by_cases he : l = []
  · rw [he]; rfl
  · rw [normalize_name, if_neg (by simpa [List.isEmpty_iff] using he),
      map_pyLower_fixed l ha, sub_suffixes_fixed l hw h1 h2 h3 h4 h5]
    simp only [pyReplace]
    rw [replaceAllFuel_no_space (("saint ").data) (("st ").data) (by decide) l l.length hw,
      replaceAllFuel_no_space (("sainte ").data) (("ste ").data) (by decide) l l.length hw]
    exact stripNonAlnum_fixed l ha

/-- C1 counterexample: `normalize_name` is not idempotent.  The input
`"count y"` normalizes to `"county"` (the space is stripped only after
the suffix regex has run, so no whole word `county` was present to
remove), but normalizing `"county"` again removes it as a suffix word
and yields `""`. -/
theorem claim_C1_normalize_idempotent_counterexample :
    normalize_name (normalize_name (("count y").data))
      ≠ normalize_name (("count y").data) := by decide

/-- C1 (amended): `normalize_name (normalize_name x) = normalize_name x`
for every input `x` whose normal form is not itself one of the five
one-token suffix words `county`, `parish`, `borough`, `city`,
`municipality` (on those, a second pass deletes the whole string); and
both `"Saint Mary Parish"` and `"St Mary"` normalize to `"stmary"`. -/
theorem claim_C1_normalize_idempotent_amended :
    (∀ x : List Char,
      normalize_name x ∉ [("county").data, ("parish").data, ("borough").data,
        ("city").data, ("municipality").data] →
      normalize_name (normalize_name x) = normalize_name x)
    ∧ normalize_name (("Saint Mary Parish").data) = ("stmary").data
    ∧ normalize_name (("St Mary").data) = ("stmary").data := by
  refine ⟨?_, by decide, by decide⟩
  intro x hx
  exact normalize_name_fixed (normalize_name x) (normalize_all_alnum x) hx

/-- C1 witness: the amended idempotence applied at the two concrete
inputs the claim names. -/
theorem claim_C1_normalize_idempotent_amended_witness :
    normalize_name (normalize_name (("Saint Mary Parish").data))
      = normalize_name (("Saint Mary Parish").data)
    ∧ normalize_name (normalize_name (("St Mary").data))
      = normalize_name (("St Mary").data) := by
  constructor
  · exact claim_C1_normalize_idempotent_amended.1 (("Saint Mary Parish").data) (by decide)
  · exact claim_C1_normalize_idempotent_amended.1 (("St Mary").data) (by decide)
